import Mathlib

/-!
Shallow embedding of the MIR validator pass (`src/librustc_mir/transform/validate.rs`)
and proofs of its specified properties.

The validator walks a function body's basic blocks and checks structural and
typing invariants, recording one diagnostic per violation through the session's
deferred diagnostic sink.  Types and bodies from `rustc_middle` are not part of
the validated source; they are modelled from the specification's data model
(locals with declared types, places with projection chains, operands, statements
and the closed set of terminator kinds).
-/

namespace MirValidate

/-- Modelled from the spec: the fragment of the type system the validator
queries — boolean-ness, callable-ness (function pointers and function items)
and otherwise opaque nominal types identified by a number. -/
inductive Ty
  | bool
  | int
  | fnPtr
  | fnDef (id : Nat)
  | adt (id : Nat)
deriving DecidableEq, Repr

/-- Modelled from the spec: one step of a place's projection chain
(dereference, field access, index access). -/
inductive ProjectionElem
  | deref
  | field (idx : Nat)
  | index (l : Nat)
deriving DecidableEq, Repr

/-- Modelled from the spec: a place is a local slot plus an optional
projection chain; the validator only queries its type and its syntactic
identity. -/
structure Place where
  localIdx : Nat
  projection : List ProjectionElem
deriving DecidableEq, Repr

/-- A (basic-block id, statement index) pair attributing a point in the body. -/
structure Location where
  block : Nat
  statementIndex : Nat
deriving DecidableEq, Repr

/-- Modelled from the spec: the type context / generic-parameter environment,
queried (never mutated) to resolve the type of a projected place and to decide
whether a type is trivially duplicable modulo regions. -/
structure TypingContext where
  projectionTy : Ty → ProjectionElem → Ty
  isCopyModuloRegions : Ty → Bool

/-- `Place::ty`: the declared type of the place's local, with the projection
chain resolved through the type context. -/
def Place.ty (cx : TypingContext) (localDecls : List Ty) (p : Place) : Ty :=
  p.projection.foldl cx.projectionTy (localDecls.getD p.localIdx (Ty.adt 0))

/-- Modelled from the spec: a value source — Copy of a place, Move of a
place, or a literal/constant (carrying its type). -/
inductive Operand
  | copy (place : Place)
  | move (place : Place)
  | constant (ty : Ty)
deriving DecidableEq, Repr

/-- `Operand::ty`: a Copy/Move operand has its place's type, a constant its
literal type. -/
def Operand.ty (cx : TypingContext) (localDecls : List Ty) : Operand → Ty
  | .copy place => place.ty cx localDecls
  | .move place => place.ty cx localDecls
  | .constant t => t

/-- Modelled from the spec: a value-producing right-hand side; the only shape
the validator inspects specifically is "use of an operand". -/
inductive Rvalue
  | use (op : Operand)
  | otherShape
deriving DecidableEq, Repr

/-- Modelled from the spec: only "assign place := rvalue" is specially
checked; other statement shapes pass through unchecked. -/
inductive StatementKind
  | assign (dest : Place) (rvalue : Rvalue)
  | otherStatement
deriving DecidableEq, Repr

structure Statement where
  kind : StatementKind
deriving DecidableEq, Repr

/-- Modelled from the spec: the closed set of terminator kinds, each carrying
the successor block references and operands the validator inspects. -/
inductive Terminator
  | goto (target : Nat)
  | switchInt (discr : Operand) (values : List Nat) (targets : List Nat)
  | drop (place : Place) (target : Nat) (unwind : Option Nat)
  | dropAndReplace (place : Place) (value : Operand) (target : Nat) (unwind : Option Nat)
  | call (func : Operand) (args : List Operand) (destination : Option (Place × Nat))
      (cleanup : Option Nat)
  | assert (cond : Operand) (expected : Bool) (target : Nat) (cleanup : Option Nat)
  | yield (value : Operand) (resumeTarget : Nat) (dropTarget : Option Nat)
  | falseEdge (realTarget : Nat) (imaginaryTarget : Nat)
  | falseUnwind (realTarget : Nat) (unwind : Option Nat)
  | inlineAsm (destination : Option Nat)
  | resume
  | abort
  | ret
  | unreachable
  | generatorDrop
deriving DecidableEq, Repr

/-- Modelled from the spec: a basic block is an ordered sequence of statements
followed by exactly one terminator. -/
structure BasicBlockData where
  statements : List Statement
  terminator : Terminator
deriving DecidableEq, Repr

/-- Modelled from the spec: a function body is an ordered sequence of typed
local slots plus an index-addressed table of basic blocks. -/
structure Body where
  localDecls : List Ty
  basicBlocks : List BasicBlockData
deriving DecidableEq, Repr

/-- The structured content of one diagnostic record, mirroring the data each
`fail` message carries. -/
inductive Violation
  | danglingEdge (bb : Nat)
  | switchArity (values : Nat) (targets : Nat)
  | overlappingAssign
  | nonCopyOperand (ty : Ty)
  | nonCallableCall (ty : Ty)
  | nonBoolAssert (ty : Ty)
deriving DecidableEq, Repr

/-- One record delivered to the diagnostic sink: the location the validator
attributes plus the violation payload. -/
structure Diagnostic where
  location : Location
  violation : Violation
deriving DecidableEq, Repr

/-- `TypeChecker::fail`: record one diagnostic at `loc` and continue. -/
def fail (loc : Location) (v : Violation) : List Diagnostic :=
  [⟨loc, v⟩]

/-- `TypeChecker::check_bb`: fail iff `bb` is not a block of the body. -/
def checkBB (body : Body) (loc : Location) (bb : Nat) : List Diagnostic :=
  if (body.basicBlocks.get? bb).isNone then fail loc (.danglingEdge bb) else []

/-- `check_bb` on an `Option` successor (the `if let Some` pattern). -/
def optCheckBB (body : Body) (loc : Location) : Option Nat → List Diagnostic
  | some bb => checkBB body loc bb
  | none => []

/-- The `for target in targets` loop of the `SwitchInt` arm. -/
def visitTargets (body : Body) (loc : Location) : List Nat → List Diagnostic
  | [] => []
  | t :: rest => checkBB body loc t ++ visitTargets body loc rest

/-- The `SwitchInt` arity check: fail with both counts unless there is exactly
one more target than values. -/
def checkSwitchArity (loc : Location) (values targets : List Nat) : List Diagnostic :=
  if targets.length ≠ values.length + 1
    then fail loc (.switchArity values.length targets.length)
    else []

/-- The `Call` callee check: fail naming the type unless the callee's type is
a function pointer or function item. -/
def checkCallable (cx : TypingContext) (localDecls : List Ty) (loc : Location)
    (func : Operand) : List Diagnostic :=
  match func.ty cx localDecls with
  | .fnPtr => []
  | .fnDef _ => []
  | funcTy => fail loc (.nonCallableCall funcTy)

/-- `check_bb` on a `Call`'s optional destination (place, block) pair. -/
def checkDestination (body : Body) (loc : Location) :
    Option (Place × Nat) → List Diagnostic
  | some (_, target) => checkBB body loc target
  | none => []

/-- The `Assert` condition check: fail naming the type unless the condition's
type is boolean. -/
def checkAssertCond (cx : TypingContext) (localDecls : List Ty) (loc : Location)
    (cond : Operand) : List Diagnostic :=
  if cond.ty cx localDecls ≠ Ty.bool
    then fail loc (.nonBoolAssert (cond.ty cx localDecls))
    else []

/-- `visit_operand`: `Operand::Copy` is only supposed to be used with `Copy`
types, so fail on a Copy of a place whose type is not trivially duplicable
modulo regions. -/
def visitOperand (cx : TypingContext) (body : Body) (operand : Operand)
    (loc : Location) : List Diagnostic :=
  match operand with
  | .copy place =>
      let t := place.ty cx body.localDecls
      if ¬ cx.isCopyModuloRegions t then fail loc (.nonCopyOperand t) else []
  | _ => []

/-- `visit_statement`: the sides of an assignment must not alias; currently
this just checks whether the places are identical.  No forwarding to the
default recursion. -/
def visitStatement (cx : TypingContext) (body : Body) (statement : Statement)
    (loc : Location) : List Diagnostic :=
  match statement.kind with
  | .assign dest rvalue =>
      match rvalue with
      | .use (.copy src) | .use (.move src) =>
          if dest = src then fail loc .overlappingAssign else []
      | _ => []
  | _ => []

/-- `visit_terminator`: per-kind successor existence checks plus per-kind
shape checks.  No forwarding to the default recursion. -/
def visitTerminator (cx : TypingContext) (body : Body) (terminator : Terminator)
    (loc : Location) : List Diagnostic :=
  match terminator with
  | .goto target => checkBB body loc target
  | .switchInt _discr values targets =>
      checkSwitchArity loc values targets ++ visitTargets body loc targets
  | .drop _place target unwind =>
      checkBB body loc target ++ optCheckBB body loc unwind
  | .dropAndReplace _place _value target unwind =>
      checkBB body loc target ++ optCheckBB body loc unwind
  | .call func _args destination cleanup =>
      checkCallable cx body.localDecls loc func
      ++ checkDestination body loc destination
      ++ optCheckBB body loc cleanup
  | .assert cond _expected target cleanup =>
      checkAssertCond cx body.localDecls loc cond
      ++ checkBB body loc target ++ optCheckBB body loc cleanup
  | .yield _value resumeTarget dropTarget =>
      checkBB body loc resumeTarget ++ optCheckBB body loc dropTarget
  | .falseEdge realTarget imaginaryTarget =>
      checkBB body loc realTarget ++ checkBB body loc imaginaryTarget
  | .falseUnwind realTarget unwind =>
      checkBB body loc realTarget ++ optCheckBB body loc unwind
  | .inlineAsm destination => optCheckBB body loc destination
  | .resume => []
  | .abort => []
  | .ret => []
  | .unreachable => []
  | .generatorDrop => []

/-- The walker's statement loop: statement `i` of block `bb` is visited at
location `(bb, i)`. -/
def visitStatementsFrom (cx : TypingContext) (body : Body) (bb : Nat) :
    Nat → List Statement → List Diagnostic
  | _, [] => []
  | i, s :: rest =>
      visitStatement cx body s ⟨bb, i⟩ ++ visitStatementsFrom cx body bb (i + 1) rest

/-- One block's visit: every statement in sequence, then the terminator at
statement index `statements.length`. -/
def visitBasicBlockData (cx : TypingContext) (body : Body) (bb : Nat)
    (data : BasicBlockData) : List Diagnostic :=
  visitStatementsFrom cx body bb 0 data.statements
  ++ visitTerminator cx body data.terminator ⟨bb, data.statements.length⟩

/-- The walker's block loop, in the body's storage order. -/
def visitBlocksFrom (cx : TypingContext) (body : Body) :
    Nat → List BasicBlockData → List Diagnostic
  | _, [] => []
  | i, data :: rest =>
      visitBasicBlockData cx body i data ++ visitBlocksFrom cx body (i + 1) rest

/-- `visit_body`: all diagnostics of one traversal, in emission order. -/
def visitBody (cx : TypingContext) (body : Body) : List Diagnostic :=
  visitBlocksFrom cx body 0 body.basicBlocks

/-- The pipeline-visible state a validation run touches: the function body
(handed in mutably by convention) and the session's diagnostic sink. -/
structure Session where
  body : Body
  diagnostics : List Diagnostic
deriving DecidableEq, Repr

/-- Append freshly recorded diagnostics to the session's sink. -/
def emit (s : Session) (ds : List Diagnostic) : Session :=
  { s with diagnostics := s.diagnostics ++ ds }

/-- The block loop threaded through the session state: each block's checks
read the session's body and only append diagnostics. -/
def runBlocksFrom (cx : TypingContext) :
    Nat → List BasicBlockData → Session → Session
  | _, [], s => s
  | i, data :: rest, s =>
      runBlocksFrom cx (i + 1) rest (emit s (visitBasicBlockData cx s.body i data))

/-- `Validator::run_pass`: traverse the session's body, recording diagnostics
for every violation. -/
def runPass (cx : TypingContext) (s : Session) : Session :=
  runBlocksFrom cx 0 s.body.basicBlocks s

/-- The successor block references a terminator names, kind by kind — exactly
the references `visit_terminator` existence-checks. -/
def Terminator.successors : Terminator → List Nat
  | .goto target => [target]
  | .switchInt _ _ targets => targets
  | .drop _ target unwind => target :: unwind.toList
  | .dropAndReplace _ _ target unwind => target :: unwind.toList
  | .call _ _ destination cleanup => (destination.map Prod.snd).toList ++ cleanup.toList
  | .assert _ _ target cleanup => target :: cleanup.toList
  | .yield _ resumeTarget dropTarget => resumeTarget :: dropTarget.toList
  | .falseEdge realTarget imaginaryTarget => [realTarget, imaginaryTarget]
  | .falseUnwind realTarget unwind => realTarget :: unwind.toList
  | .inlineAsm destination => destination.toList
  | .resume => []
  | .abort => []
  | .ret => []
  | .unreachable => []
  | .generatorDrop => []

/-- A statement is self-aliasing when it assigns a place from a direct
Copy/Move of the syntactically identical place. -/
def Statement.selfAliasing (s : Statement) : Bool :=
  match s.kind with
  | .assign dest (.use (.copy src)) => decide (dest = src)
  | .assign dest (.use (.move src)) => decide (dest = src)
  | _ => false

/-- The operands contained in an rvalue shape the model represents. -/
def Rvalue.operands : Rvalue → List Operand
  | .use op => [op]
  | .otherShape => []

/-- The operands contained in a statement. -/
def Statement.operands (s : Statement) : List Operand :=
  match s.kind with
  | .assign _ rvalue => rvalue.operands
  | .otherStatement => []

/-- The operands contained in a terminator. -/
def Terminator.operands : Terminator → List Operand
  | .switchInt discr _ _ => [discr]
  | .dropAndReplace _ value _ _ => [value]
  | .call func args _ _ => func :: args
  | .assert cond _ _ _ => [cond]
  | .yield value _ _ => [value]
  | _ => []

/-- All operands appearing in a block's statements and terminator. -/
def BasicBlockData.operands (data : BasicBlockData) : List Operand :=
  (data.statements.map Statement.operands).flatten ++ data.terminator.operands

/-- A `SwitchInt` terminator has exactly one more target than values; other
kinds impose no arity constraint. -/
def Terminator.switchArityOk : Terminator → Bool
  | .switchInt _ values targets => decide (targets.length = values.length + 1)
  | _ => true

/-- A callable type: function pointer or function item. -/
def callable : Ty → Bool
  | .fnPtr => true
  | .fnDef _ => true
  | _ => false

/-- A `Call` terminator's callee has a callable type; other kinds impose no
constraint. -/
def Terminator.callCallableOk (cx : TypingContext) (localDecls : List Ty) :
    Terminator → Bool
  | .call func _ _ _ => callable (func.ty cx localDecls)
  | _ => true

/-- An `Assert` terminator's condition has boolean type; other kinds impose no
constraint. -/
def Terminator.assertBoolOk (cx : TypingContext) (localDecls : List Ty) :
    Terminator → Bool
  | .assert cond _ _ _ => decide (cond.ty cx localDecls = Ty.bool)
  | _ => true

/-- A Copy operand's place has a trivially duplicable type; Move and constant
operands impose no constraint. -/
def operandCopyOk (cx : TypingContext) (localDecls : List Ty) : Operand → Bool
  | .copy p => cx.isCopyModuloRegions (p.ty cx localDecls)
  | _ => true

/-- Whether a diagnostic is a non-duplicable-copy violation. -/
def Diagnostic.isNonCopyViolation : Diagnostic → Bool
  | ⟨_, .nonCopyOperand _⟩ => true
  | _ => false

/-- Whether a diagnostic is an ill-typed-call-target violation. -/
def Diagnostic.isCallTargetViolation : Diagnostic → Bool
  | ⟨_, .nonCallableCall _⟩ => true
  | _ => false

/-- Whether a diagnostic is an ill-typed-assert-condition violation. -/
def Diagnostic.isAssertCondViolation : Diagnostic → Bool
  | ⟨_, .nonBoolAssert _⟩ => true
  | _ => false

/-- Example environment where every type is trivially duplicable and
projections do not change a type. -/
def cxAllCopy : TypingContext :=
  ⟨fun t _ => t, fun _ => true⟩

/-- Example environment where no type is trivially duplicable. -/
def cxNoCopy : TypingContext :=
  ⟨fun t _ => t, fun _ => false⟩

/-- Example body with no blocks at all. -/
def emptyBody : Body :=
  ⟨[], []⟩

/-- Example well-formed two-block body exercising assignment, switch, assert
and call checks. -/
def wfBody : Body :=
  ⟨[Ty.int, Ty.int],
    [⟨[⟨.assign ⟨0, []⟩ (.use (.copy ⟨1, []⟩))⟩],
        .switchInt (.copy ⟨0, []⟩) [0] [1, 0]⟩,
      ⟨[], .assert (.constant Ty.bool) true 0 (some 1)⟩]⟩

/-- Example body holding a Copy of a non-duplicable place as the direct
source of an assignment, then returning. -/
def nonCopyBody : Body :=
  ⟨[Ty.adt 7, Ty.adt 7],
    [⟨[⟨.assign ⟨0, []⟩ (.use (.copy ⟨1, []⟩))⟩], .ret⟩]⟩

theorem checkBB_valid (body : Body) (loc : Location) (bb : Nat)
    (h : (body.basicBlocks.get? bb).isSome) : checkBB body loc bb = [] := by
  unfold checkBB
  cases hx : body.basicBlocks.get? bb with
  | none => rw [hx] at h; simp at h
  | some data => rfl

theorem checkBB_invalid (body : Body) (loc : Location) (bb : Nat)
    (h : body.basicBlocks.get? bb = none) :
    checkBB body loc bb = [⟨loc, .danglingEdge bb⟩] := by
  unfold checkBB
  rw [h]
  rfl

theorem mem_checkBB (body : Body) (loc : Location) (bb : Nat) :
    ∀ d ∈ checkBB body loc bb, d = ⟨loc, .danglingEdge bb⟩ := by
  intro d hd
  unfold checkBB at hd
  split at hd
  · simpa [fail] using hd
  · simp at hd

theorem optCheckBB_valid (body : Body) (loc : Location) (o : Option Nat)
    (h : ∀ bb ∈ o.toList, (body.basicBlocks.get? bb).isSome) :
    optCheckBB body loc o = [] := by
  cases o with
  | none => rfl
  | some u => exact checkBB_valid body loc u (h u (by simp))

theorem mem_optCheckBB (body : Body) (loc : Location) (o : Option Nat) :
    ∀ d ∈ optCheckBB body loc o, ∃ bb, d = ⟨loc, .danglingEdge bb⟩ := by
  intro d hd
  cases o with
  | none => simp [optCheckBB] at hd
  | some u => exact ⟨u, mem_checkBB body loc u d hd⟩

theorem optCheckBB_some_invalid (body : Body) (loc : Location) (o : Option Nat)
    (bb : Nat) (ho : o = some bb) (h : body.basicBlocks.get? bb = none) :
    optCheckBB body loc o = [⟨loc, .danglingEdge bb⟩] := by
  subst ho
  simpa [optCheckBB] using checkBB_invalid body loc bb h

theorem optCheckBB_mem_of_invalid (body : Body) (loc : Location) (o : Option Nat)
    (bb : Nat) (hmem : bb ∈ o.toList) (h : body.basicBlocks.get? bb = none) :
    (⟨loc, .danglingEdge bb⟩ : Diagnostic) ∈ optCheckBB body loc o := by
  cases o with
  | none => simp at hmem
  | some u =>
      have hu : bb = u := by simpa using hmem
      subst hu
      simp [optCheckBB, checkBB_invalid body loc bb h]

theorem visitTargets_valid (body : Body) (loc : Location) (ts : List Nat)
    (h : ∀ bb ∈ ts, (body.basicBlocks.get? bb).isSome) :
    visitTargets body loc ts = [] := by
  induction ts with
  | nil => rfl
  | cons t rest ih =>
      have h1 : checkBB body loc t = [] := checkBB_valid body loc t (h t (by simp))
      have h2 : visitTargets body loc rest = []
        := ih (fun bb hbb => h bb (List.mem_cons_of_mem t hbb))
      simp [visitTargets, h1, h2]

theorem mem_visitTargets (body : Body) (loc : Location) (ts : List Nat) :
    ∀ d ∈ visitTargets body loc ts, ∃ bb, d = ⟨loc, .danglingEdge bb⟩ := by
  intro d hd
  induction ts with
  | nil => simp [visitTargets] at hd
  | cons t rest ih =>
      rcases List.mem_append.mp hd with h | h
      · exact ⟨t, mem_checkBB body loc t d h⟩
      · exact ih h

theorem visitTargets_mem_of_invalid (body : Body) (loc : Location) (ts : List Nat)
    (bb : Nat) (hbb : bb ∈ ts) (h : body.basicBlocks.get? bb = none) :
    (⟨loc, .danglingEdge bb⟩ : Diagnostic) ∈ visitTargets body loc ts := by
  induction ts with
  | nil => simp at hbb
  | cons t rest ih =>
      rcases List.mem_cons.mp hbb with rfl | hmem
      · exact List.mem_append.mpr (Or.inl (by simp [checkBB_invalid body loc bb h]))
      · exact List.mem_append.mpr (Or.inr (ih hmem))

theorem mem_checkSwitchArity (loc : Location) (values targets : List Nat) :
    ∀ d ∈ checkSwitchArity loc values targets,
      d = ⟨loc, .switchArity values.length targets.length⟩
        ∧ targets.length ≠ values.length + 1 := by
  intro d hd
  unfold checkSwitchArity at hd
  split at hd
  · rename_i hne
    exact ⟨by simpa [fail] using hd, hne⟩
  · simp at hd

theorem checkSwitchArity_eq (loc : Location) (values targets : List Nat) :
    checkSwitchArity loc values targets =
      if targets.length ≠ values.length + 1
        then [⟨loc, .switchArity values.length targets.length⟩]
        else [] := by
  simp [checkSwitchArity, fail]

theorem checkCallable_eq (cx : TypingContext) (decls : List Ty) (loc : Location)
    (func : Operand) :
    checkCallable cx decls loc func =
      if callable (func.ty cx decls) = true then []
      else [⟨loc, .nonCallableCall (func.ty cx decls)⟩] := by
  cases h : func.ty cx decls <;> simp [checkCallable, callable, h, fail]

theorem mem_checkCallable (cx : TypingContext) (decls : List Ty) (loc : Location)
    (func : Operand) :
    ∀ d ∈ checkCallable cx decls loc func,
      d = ⟨loc, .nonCallableCall (func.ty cx decls)⟩
        ∧ callable (func.ty cx decls) = false := by
  intro d hd
  rw [checkCallable_eq] at hd
  split at hd
  · simp at hd
  · rename_i hni
    exact ⟨by simpa using hd, by simpa using hni⟩

theorem mem_checkDestination (body : Body) (loc : Location)
    (o : Option (Place × Nat)) :
    ∀ d ∈ checkDestination body loc o, ∃ bb, d = ⟨loc, .danglingEdge bb⟩ := by
  intro d hd
  cases o with
  | none => simp [checkDestination] at hd
  | some pt => exact ⟨pt.2, mem_checkBB body loc pt.2 d (by simpa [checkDestination] using hd)⟩

theorem checkAssertCond_eq (cx : TypingContext) (decls : List Ty) (loc : Location)
    (cond : Operand) :
    checkAssertCond cx decls loc cond =
      if cond.ty cx decls = Ty.bool then []
      else [⟨loc, .nonBoolAssert (cond.ty cx decls)⟩] := by
  unfold checkAssertCond
  split <;> rename_i h
  · simp [fail, h]
  · simp at h
    simp [h]

theorem mem_checkAssertCond (cx : TypingContext) (decls : List Ty) (loc : Location)
    (cond : Operand) :
    ∀ d ∈ checkAssertCond cx decls loc cond,
      d = ⟨loc, .nonBoolAssert (cond.ty cx decls)⟩ ∧ cond.ty cx decls ≠ Ty.bool := by
  intro d hd
  rw [checkAssertCond_eq] at hd
  split at hd
  · simp at hd
  · rename_i hne
    exact ⟨by simpa using hd, hne⟩

theorem mem_visitStatement (cx : TypingContext) (body : Body) (s : Statement)
    (loc : Location) :
    ∀ d ∈ visitStatement cx body s loc,
      d = ⟨loc, .overlappingAssign⟩ ∧ s.selfAliasing = true := by
  intro d hd
  obtain ⟨kind⟩ := s
  cases kind with
  | otherStatement => simp [visitStatement] at hd
  | assign dest rvalue =>
      cases rvalue with
      | otherShape => simp [visitStatement] at hd
      | use op =>
          cases op with
          | constant t => simp [visitStatement] at hd
          | copy src =>
              unfold visitStatement at hd
              simp only at hd
              split at hd
              · rename_i heq
                exact ⟨by simpa [fail] using hd, by simp [Statement.selfAliasing, heq]⟩
              · simp at hd
          | move src =>
              unfold visitStatement at hd
              simp only at hd
              split at hd
              · rename_i heq
                exact ⟨by simpa [fail] using hd, by simp [Statement.selfAliasing, heq]⟩
              · simp at hd

theorem visitStatement_not_aliasing (cx : TypingContext) (body : Body)
    (s : Statement) (loc : Location) (h : s.selfAliasing = false) :
    visitStatement cx body s loc = [] := by
  rcases hs : visitStatement cx body s loc with _ | ⟨d, rest⟩
  · rfl
  · have hmem : d ∈ visitStatement cx body s loc := by rw [hs]; simp
    have := (mem_visitStatement cx body s loc d hmem).2
    rw [h] at this
    cases this

theorem visitTerminator_nil (cx : TypingContext) (body : Body) (term : Terminator)
    (loc : Location)
    (hsucc : ∀ bb ∈ term.successors, (body.basicBlocks.get? bb).isSome)
    (harity : term.switchArityOk = true)
    (hcall : term.callCallableOk cx body.localDecls = true)
    (hassert : term.assertBoolOk cx body.localDecls = true) :
    visitTerminator cx body term loc = [] := by
  cases term with
  | goto target =>
      exact checkBB_valid body loc target (hsucc target (by simp [Terminator.successors]))
  | switchInt discr values targets =>
      have h1 : targets.length = values.length + 1 := by
        simpa [Terminator.switchArityOk] using harity
      have h2 : visitTargets body loc targets = [] :=
        visitTargets_valid body loc targets
          (fun bb hbb => hsucc bb (by simpa [Terminator.successors] using hbb))
      simp [visitTerminator, checkSwitchArity_eq, h1, h2]
  | drop place target unwind =>
      have h1 := checkBB_valid body loc target (hsucc target (by simp [Terminator.successors]))
      have h2 := optCheckBB_valid body loc unwind
        (fun bb hbb => hsucc bb (by simp [Terminator.successors]; simpa using Or.inr hbb))
      simp [visitTerminator, h1, h2]
  | dropAndReplace place value target unwind =>
      have h1 := checkBB_valid body loc target (hsucc target (by simp [Terminator.successors]))
      have h2 := optCheckBB_valid body loc unwind
        (fun bb hbb => hsucc bb (by simp [Terminator.successors]; simpa using Or.inr hbb))
      simp [visitTerminator, h1, h2]
  | call func args destination cleanup =>
      have hc : callable (func.ty cx body.localDecls) = true := by
        simpa [Terminator.callCallableOk] using hcall
      have h1 : checkCallable cx body.localDecls loc func = [] := by
        rw [checkCallable_eq, if_pos hc]
      have h2 : checkDestination body loc destination = [] := by
        cases destination with
        | none => rfl
        | some pt =>
            obtain ⟨pl, t⟩ := pt
            exact checkBB_valid body loc t (hsucc t (by simp [Terminator.successors]))
      have h3 := optCheckBB_valid body loc cleanup
        (fun bb hbb => hsucc bb (by simp [Terminator.successors]; simpa using Or.inr hbb))
      simp [visitTerminator, h1, h2, h3]
  | assert cond expected target cleanup =>
      have hb : cond.ty cx body.localDecls = Ty.bool := by
        simpa [Terminator.assertBoolOk] using hassert
      have h1 : checkAssertCond cx body.localDecls loc cond = [] := by
        rw [checkAssertCond_eq, if_pos hb]
      have h2 := checkBB_valid body loc target (hsucc target (by simp [Terminator.successors]))
      have h3 := optCheckBB_valid body loc cleanup
        (fun bb hbb => hsucc bb (by simp [Terminator.successors]; simpa using Or.inr hbb))
      simp [visitTerminator, h1, h2, h3]
  | yield value resumeTarget dropTarget =>
      have h1 := checkBB_valid body loc resumeTarget
        (hsucc resumeTarget (by simp [Terminator.successors]))
      have h2 := optCheckBB_valid body loc dropTarget
        (fun bb hbb => hsucc bb (by simp [Terminator.successors]; simpa using Or.inr hbb))
      simp [visitTerminator, h1, h2]
  | falseEdge realTarget imaginaryTarget =>
      have h1 := checkBB_valid body loc realTarget
        (hsucc realTarget (by simp [Terminator.successors]))
      have h2 := checkBB_valid body loc imaginaryTarget
        (hsucc imaginaryTarget (by simp [Terminator.successors]))
      simp [visitTerminator, h1, h2]
  | falseUnwind realTarget unwind =>
      have h1 := checkBB_valid body loc realTarget
        (hsucc realTarget (by simp [Terminator.successors]))
      have h2 := optCheckBB_valid body loc unwind
        (fun bb hbb => hsucc bb (by simp [Terminator.successors]; simpa using Or.inr hbb))
      simp [visitTerminator, h1, h2]
  | inlineAsm destination =>
      exact optCheckBB_valid body loc destination
        (fun bb hbb => hsucc bb (by simpa [Terminator.successors] using hbb))
  | resume => rfl
  | abort => rfl
  | ret => rfl
  | unreachable => rfl
  | generatorDrop => rfl

theorem mem_visitTerminator (cx : TypingContext) (body : Body) (term : Terminator)
    (loc : Location) :
    ∀ d ∈ visitTerminator cx body term loc,
      (∃ bb, d = ⟨loc, .danglingEdge bb⟩)
      ∨ (∃ a b, d = ⟨loc, .switchArity a b⟩)
      ∨ (∃ t, d = ⟨loc, .nonCallableCall t⟩)
      ∨ (∃ t, d = ⟨loc, .nonBoolAssert t⟩) := by
  intro d hd
  cases term with
  | goto target =>
      exact Or.inl ⟨target, mem_checkBB body loc target d hd⟩
  | switchInt discr values targets =>
      rcases List.mem_append.mp hd with h | h
      · exact Or.inr (Or.inl ⟨values.length, targets.length,
          (mem_checkSwitchArity loc values targets d h).1⟩)
      · exact Or.inl (mem_visitTargets body loc targets d h)
  | drop place target unwind =>
      rcases List.mem_append.mp hd with h | h
      · exact Or.inl ⟨target, mem_checkBB body loc target d h⟩
      · exact Or.inl (mem_optCheckBB body loc unwind d h)
  | dropAndReplace place value target unwind =>
      rcases List.mem_append.mp hd with h | h
      · exact Or.inl ⟨target, mem_checkBB body loc target d h⟩
      · exact Or.inl (mem_optCheckBB body loc unwind d h)
  | call func args destination cleanup =>
      rcases List.mem_append.mp hd with h | h
      · rcases List.mem_append.mp h with h2 | h2
        · exact Or.inr (Or.inr (Or.inl ⟨func.ty cx body.localDecls,
            (mem_checkCallable cx body.localDecls loc func d h2).1⟩))
        · exact Or.inl (mem_checkDestination body loc destination d h2)
      · exact Or.inl (mem_optCheckBB body loc cleanup d h)
  | assert cond expected target cleanup =>
      rcases List.mem_append.mp hd with h | h
      · rcases List.mem_append.mp h with h2 | h2
        · exact Or.inr (Or.inr (Or.inr ⟨cond.ty cx body.localDecls,
            (mem_checkAssertCond cx body.localDecls loc cond d h2).1⟩))
        · exact Or.inl ⟨target, mem_checkBB body loc target d h2⟩
      · exact Or.inl (mem_optCheckBB body loc cleanup d h)
  | yield value resumeTarget dropTarget =>
      rcases List.mem_append.mp hd with h | h
      · exact Or.inl ⟨resumeTarget, mem_checkBB body loc resumeTarget d h⟩
      · exact Or.inl (mem_optCheckBB body loc dropTarget d h)
  | falseEdge realTarget imaginaryTarget =>
      rcases List.mem_append.mp hd with h | h
      · exact Or.inl ⟨realTarget, mem_checkBB body loc realTarget d h⟩
      · exact Or.inl ⟨imaginaryTarget, mem_checkBB body loc imaginaryTarget d h⟩
  | falseUnwind realTarget unwind =>
      rcases List.mem_append.mp hd with h | h
      · exact Or.inl ⟨realTarget, mem_checkBB body loc realTarget d h⟩
      · exact Or.inl (mem_optCheckBB body loc unwind d h)
  | inlineAsm destination =>
      exact Or.inl (mem_optCheckBB body loc destination d hd)
  | resume => simp [visitTerminator] at hd
  | abort => simp [visitTerminator] at hd
  | ret => simp [visitTerminator] at hd
  | unreachable => simp [visitTerminator] at hd
  | generatorDrop => simp [visitTerminator] at hd

theorem mem_visitStatementsFrom (cx : TypingContext) (body : Body) (bb : Nat)
    (stmts : List Statement) (i : Nat) :
    ∀ d ∈ visitStatementsFrom cx body bb i stmts,
      ∃ s ∈ stmts, ∃ loc, d ∈ visitStatement cx body s loc := by
  induction stmts generalizing i with
  | nil => intro d hd; simp [visitStatementsFrom] at hd
  | cons s rest ih =>
      intro d hd
      rcases List.mem_append.mp hd with h | h
      · exact ⟨s, by simp, ⟨bb, i⟩, h⟩
      · obtain ⟨s2, hs2, loc, hloc⟩ := ih (i + 1) d h
        exact ⟨s2, List.mem_cons_of_mem s hs2, loc, hloc⟩

theorem visitStatementsFrom_nil (cx : TypingContext) (body : Body) (bb : Nat)
    (stmts : List Statement) (i : Nat)
    (h : ∀ s ∈ stmts, s.selfAliasing = false) :
    visitStatementsFrom cx body bb i stmts = [] := by
  induction stmts generalizing i with
  | nil => rfl
  | cons s rest ih =>
      have h1 := visitStatement_not_aliasing cx body s ⟨bb, i⟩ (h s (by simp))
      have h2 := ih (i + 1) (fun s2 hs2 => h s2 (List.mem_cons_of_mem s hs2))
      simp [visitStatementsFrom, h1, h2]

theorem mem_visitBlocksFrom (cx : TypingContext) (body : Body)
    (l : List BasicBlockData) (i : Nat) :
    ∀ d ∈ visitBlocksFrom cx body i l,
      ∃ data ∈ l, ∃ j, d ∈ visitBasicBlockData cx body j data := by
  induction l generalizing i with
  | nil => intro d hd; simp [visitBlocksFrom] at hd
  | cons data rest ih =>
      intro d hd
      rcases List.mem_append.mp hd with h | h
      · exact ⟨data, by simp, i, h⟩
      · obtain ⟨data2, hdata2, j, hj⟩ := ih (i + 1) d h
        exact ⟨data2, List.mem_cons_of_mem data hdata2, j, hj⟩

theorem visitBlocksFrom_nil (cx : TypingContext) (body : Body)
    (l : List BasicBlockData) (i : Nat)
    (h : ∀ data ∈ l, ∀ j, visitBasicBlockData cx body j data = []) :
    visitBlocksFrom cx body i l = [] := by
  induction l generalizing i with
  | nil => rfl
  | cons data rest ih =>
      have h1 := h data (by simp) i
      have h2 := ih (i + 1) (fun d2 hd2 j => h d2 (List.mem_cons_of_mem data hd2) j)
      simp [visitBlocksFrom, h1, h2]

theorem runBlocksFrom_eq (cx : TypingContext) (l : List BasicBlockData)
    (i : Nat) (s : Session) :
    runBlocksFrom cx i l s = ⟨s.body, s.diagnostics ++ visitBlocksFrom cx s.body i l⟩ := by
  induction l generalizing i s with
  | nil => obtain ⟨b, ds⟩ := s; simp [runBlocksFrom, visitBlocksFrom]
  | cons data rest ih =>
      show runBlocksFrom cx (i + 1) rest (emit s (visitBasicBlockData cx s.body i data)) = _
      rw [ih]
      simp [emit, visitBlocksFrom, List.append_assoc]

theorem runPass_eq (cx : TypingContext) (s : Session) :
    runPass cx s = ⟨s.body, s.diagnostics ++ visitBody cx s.body⟩ :=
  runBlocksFrom_eq cx s.body.basicBlocks 0 s

/-- C1: for a well-formed body — every successor reference a terminator names
is an existing block, no assignment's destination equals a directly
copied/moved source, every Copy operand's place has a trivially duplicable
type, every SwitchInt has exactly one more target than values, every Call
callee has a callable type, and every Assert condition is boolean — a
validation run reports zero violations: the diagnostic sink receives no
records. -/
theorem wellFormed_run_reports_nothing (cx : TypingContext) (body : Body)
    (hsucc : ∀ data ∈ body.basicBlocks, ∀ bb ∈ data.terminator.successors,
      (body.basicBlocks.get? bb).isSome)
    (halias : ∀ data ∈ body.basicBlocks, ∀ s ∈ data.statements,
      s.selfAliasing = false)
    (hcopy : ∀ data ∈ body.basicBlocks, ∀ op ∈ data.operands,
      operandCopyOk cx body.localDecls op = true)
    (harity : ∀ data ∈ body.basicBlocks, data.terminator.switchArityOk = true)
    (hcall : ∀ data ∈ body.basicBlocks,
      data.terminator.callCallableOk cx body.localDecls = true)
    (hassert : ∀ data ∈ body.basicBlocks,
      data.terminator.assertBoolOk cx body.localDecls = true) :
    (runPass cx ⟨body, []⟩).diagnostics = [] := by
  rw [runPass_eq]
  show [] ++ visitBody cx body = []
  rw [List.nil_append]
  apply visitBlocksFrom_nil
  intro data hdata j
  unfold visitBasicBlockData
  rw [visitStatementsFrom_nil cx body j data.statements 0 (halias data hdata),
    visitTerminator_nil cx body data.terminator ⟨j, data.statements.length⟩
      (hsucc data hdata) (harity data hdata) (hcall data hdata) (hassert data hdata)]
  rfl

/-- C1 witness: a concrete two-block well-formed body (an assignment from a
copied local, a SwitchInt, an Assert with a cleanup edge) yields an empty
diagnostic list. -/
theorem wellFormed_run_reports_nothing_witness :
    (runPass cxAllCopy ⟨wfBody, []⟩).diagnostics = [] :=
  wellFormed_run_reports_nothing cxAllCopy wfBody (by decide) (by decide)
    (by decide) (by decide) (by decide) (by decide)

/-- C2: the body `nonCopyBody` contains a Copy operand over a place of
non-duplicable type `adt 7`, so per the specification the validator should
report exactly one non-duplicable-copy violation naming that type (as the
operand handler indeed produces when invoked directly); but a validation run
reports nothing, because the statement and terminator handlers never forward
to the operand-level check. -/
theorem copy_check_unreachable_at_noncopy_input :
    (runPass cxNoCopy ⟨nonCopyBody, []⟩).diagnostics = []
    ∧ visitOperand cxNoCopy nonCopyBody (.copy ⟨1, []⟩) ⟨0, 0⟩
      = [⟨⟨0, 0⟩, .nonCopyOperand (Ty.adt 7)⟩] := by
  constructor
  · decide
  · decide

/-- C3: the statement handler and the terminator handler both consume their
node without forwarding to the default recursion, so no operand of any
statement or terminator is ever subjected to the Copy-duplicability check:
no traversal of any body emits a non-duplicable-copy diagnostic. -/
theorem traversal_never_applies_copy_check (cx : TypingContext) (body : Body) :
    (visitBody cx body).filter Diagnostic.isNonCopyViolation = [] := by
  rw [List.filter_eq_nil_iff]
  intro d hd
  obtain ⟨data, hdata, j, hj⟩ := mem_visitBlocksFrom cx body body.basicBlocks 0 d hd
  rcases List.mem_append.mp hj with h | h
  · obtain ⟨s, hs, loc, hloc⟩ := mem_visitStatementsFrom cx body j data.statements 0 d h
    have heq := (mem_visitStatement cx body s loc d hloc).1
    subst heq
    simp [Diagnostic.isNonCopyViolation]
  · rcases mem_visitTerminator cx body data.terminator ⟨j, data.statements.length⟩ d h with
      ⟨bb, rfl⟩ | ⟨a, b, rfl⟩ | ⟨t, rfl⟩ | ⟨t, rfl⟩ <;>
      simp [Diagnostic.isNonCopyViolation]

/-- C4: any successor reference a terminator names whose block id is absent
from the body yields a dangling-control-edge diagnostic carrying that id and
the terminator's location; a Goto with an absent target yields exactly that
one diagnostic and no other. -/
theorem dangling_successor_reported (cx : TypingContext) (body : Body)
    (term : Terminator) (loc : Location) :
    (∀ bb ∈ term.successors, body.basicBlocks.get? bb = none →
      (⟨loc, .danglingEdge bb⟩ : Diagnostic) ∈ visitTerminator cx body term loc)
    ∧ (∀ target, body.basicBlocks.get? target = none →
      visitTerminator cx body (.goto target) loc = [⟨loc, .danglingEdge target⟩]) := by
  constructor
  · intro bb hbb hnone
    cases term with
    | goto target =>
        have hb : bb = target := by simpa [Terminator.successors] using hbb
        subst hb
        simp [visitTerminator, checkBB_invalid body loc bb hnone]
    | switchInt discr values targets =>
        have hmem : bb ∈ targets := by simpa [Terminator.successors] using hbb
        exact List.mem_append.mpr
          (Or.inr (visitTargets_mem_of_invalid body loc targets bb hmem hnone))
    | drop place target unwind =>
        cases unwind with
        | none =>
            have hb : bb = target := by simpa [Terminator.successors] using hbb
            subst hb
            exact List.mem_append.mpr (Or.inl (by simp [checkBB_invalid body loc bb hnone]))
        | some u =>
            rcases (by simpa [Terminator.successors] using hbb : bb = target ∨ bb = u) with rfl | rfl
            · exact List.mem_append.mpr (Or.inl (by simp [checkBB_invalid body loc bb hnone]))
            · exact List.mem_append.mpr
                (Or.inr (optCheckBB_mem_of_invalid body loc (some bb) bb (by simp) hnone))
    | dropAndReplace place value target unwind =>
        cases unwind with
        | none =>
            have hb : bb = target := by simpa [Terminator.successors] using hbb
            subst hb
            exact List.mem_append.mpr (Or.inl (by simp [checkBB_invalid body loc bb hnone]))
        | some u =>
            rcases (by simpa [Terminator.successors] using hbb : bb = target ∨ bb = u) with rfl | rfl
            · exact List.mem_append.mpr (Or.inl (by simp [checkBB_invalid body loc bb hnone]))
            · exact List.mem_append.mpr
                (Or.inr (optCheckBB_mem_of_invalid body loc (some bb) bb (by simp) hnone))
    | call func args destination cleanup =>
        have hsplit : bb ∈ (destination.map Prod.snd).toList ∨ bb ∈ cleanup.toList := by
          have := hbb
          simp only [Terminator.successors] at this
          exact List.mem_append.mp this
        rcases hsplit with h | h
        · cases destination with
          | none => simp at h
          | some pt =>
              obtain ⟨pl, t⟩ := pt
              have hb : bb = t := by simpa using h
              refine List.mem_append.mpr (Or.inl (List.mem_append.mpr (Or.inr ?_)))
              rw [hb] at hnone ⊢
              simp [checkDestination, checkBB_invalid body loc t hnone]
        · exact List.mem_append.mpr
            (Or.inr (optCheckBB_mem_of_invalid body loc cleanup bb h hnone))
    | assert cond expected target cleanup =>
        cases cleanup with
        | none =>
            have hb : bb = target := by simpa [Terminator.successors] using hbb
            subst hb
            exact List.mem_append.mpr (Or.inl (List.mem_append.mpr
              (Or.inr (by simp [checkBB_invalid body loc bb hnone]))))
        | some u =>
            rcases (by simpa [Terminator.successors] using hbb : bb = target ∨ bb = u) with rfl | rfl
            · exact List.mem_append.mpr (Or.inl (List.mem_append.mpr
                (Or.inr (by simp [checkBB_invalid body loc bb hnone]))))
            · exact List.mem_append.mpr
                (Or.inr (optCheckBB_mem_of_invalid body loc (some bb) bb (by simp) hnone))
    | yield value resumeTarget dropTarget =>
        cases dropTarget with
        | none =>
            have hb : bb = resumeTarget := by simpa [Terminator.successors] using hbb
            subst hb
            exact List.mem_append.mpr (Or.inl (by simp [checkBB_invalid body loc bb hnone]))
        | some u =>
            rcases (by simpa [Terminator.successors] using hbb : bb = resumeTarget ∨ bb = u) with rfl | rfl
            · exact List.mem_append.mpr (Or.inl (by simp [checkBB_invalid body loc bb hnone]))
            · exact List.mem_append.mpr
                (Or.inr (optCheckBB_mem_of_invalid body loc (some bb) bb (by simp) hnone))
    | falseEdge realTarget imaginaryTarget =>
        rcases (by simpa [Terminator.successors] using hbb :
            bb = realTarget ∨ bb = imaginaryTarget) with rfl | rfl
        · exact List.mem_append.mpr (Or.inl (by simp [checkBB_invalid body loc bb hnone]))
        · exact List.mem_append.mpr (Or.inr (by simp [checkBB_invalid body loc bb hnone]))
    | falseUnwind realTarget unwind =>
        cases unwind with
        | none =>
            have hb : bb = realTarget := by simpa [Terminator.successors] using hbb
            subst hb
            exact List.mem_append.mpr (Or.inl (by simp [checkBB_invalid body loc bb hnone]))
        | some u =>
            rcases (by simpa [Terminator.successors] using hbb : bb = realTarget ∨ bb = u) with rfl | rfl
            · exact List.mem_append.mpr (Or.inl (by simp [checkBB_invalid body loc bb hnone]))
            · exact List.mem_append.mpr
                (Or.inr (optCheckBB_mem_of_invalid body loc (some bb) bb (by simp) hnone))
    | inlineAsm destination =>
        exact optCheckBB_mem_of_invalid body loc destination bb
          (by simpa [Terminator.successors] using hbb) hnone
    | resume => simp [Terminator.successors] at hbb
    | abort => simp [Terminator.successors] at hbb
    | ret => simp [Terminator.successors] at hbb
    | unreachable => simp [Terminator.successors] at hbb
    | generatorDrop => simp [Terminator.successors] at hbb
  · intro target hnone
    simpa [visitTerminator] using checkBB_invalid body loc target hnone

/-- C4 witness: a Goto to block 7 of a block-less body reports exactly the
one dangling-edge diagnostic. -/
theorem dangling_successor_reported_witness :
    visitTerminator cxAllCopy emptyBody (.goto 7) ⟨0, 0⟩
      = [⟨⟨0, 0⟩, .danglingEdge 7⟩] :=
  (dangling_successor_reported cxAllCopy emptyBody (.goto 7) ⟨0, 0⟩).2 7 (by decide)

/-- C5: a SwitchInt with N values and M targets yields an arity-mismatch
diagnostic carrying both counts exactly when M ≠ N + 1, and each absent
target among the M additionally yields its dangling-edge diagnostic; neither
check suppresses the other. -/
theorem switch_arity_checked_independently (cx : TypingContext) (body : Body)
    (discr : Operand) (values targets : List Nat) (loc : Location) :
    ((⟨loc, .switchArity values.length targets.length⟩ : Diagnostic)
        ∈ visitTerminator cx body (.switchInt discr values targets) loc
      ↔ targets.length ≠ values.length + 1)
    ∧ (∀ bb ∈ targets, body.basicBlocks.get? bb = none →
      (⟨loc, .danglingEdge bb⟩ : Diagnostic)
        ∈ visitTerminator cx body (.switchInt discr values targets) loc) := by
  unfold visitTerminator
  constructor
  · constructor
    · intro hmem
      rcases List.mem_append.mp hmem with h | h
      · exact (mem_checkSwitchArity loc values targets _ h).2
      · obtain ⟨bb, heq⟩ := mem_visitTargets body loc targets _ h
        simp at heq
    · intro hne
      exact List.mem_append.mpr (Or.inl (by rw [checkSwitchArity_eq, if_pos hne]; simp))
  · intro bb hbb hnone
    exact List.mem_append.mpr
      (Or.inr (visitTargets_mem_of_invalid body loc targets bb hbb hnone))

/-- C5 witness: a SwitchInt with two values and a single absent target
reports both the arity mismatch (counts 2 and 1) and the dangling edge. -/
theorem switch_arity_checked_independently_witness :
    (⟨⟨0, 0⟩, .switchArity 2 1⟩ : Diagnostic)
      ∈ visitTerminator cxAllCopy emptyBody
          (.switchInt (.constant Ty.int) [0, 1] [9]) ⟨0, 0⟩
    ∧ (⟨⟨0, 0⟩, .danglingEdge 9⟩ : Diagnostic)
      ∈ visitTerminator cxAllCopy emptyBody
          (.switchInt (.constant Ty.int) [0, 1] [9]) ⟨0, 0⟩ :=
  ⟨(switch_arity_checked_independently cxAllCopy emptyBody (.constant Ty.int)
      [0, 1] [9] ⟨0, 0⟩).1.mpr (by decide),
    (switch_arity_checked_independently cxAllCopy emptyBody (.constant Ty.int)
      [0, 1] [9] ⟨0, 0⟩).2 9 (by decide) (by decide)⟩

/-- C6: an assignment whose right-hand side is a direct use of a Copy or Move
operand yields exactly one overlapping-memory diagnostic precisely when the
destination and source places are syntactically identical; a constant use,
any other rvalue shape, and any other statement shape are never checked by
this rule. -/
theorem assign_overlap_iff_syntactic_identity (cx : TypingContext) (body : Body)
    (loc : Location) (dest src : Place) (t : Ty) :
    (visitStatement cx body ⟨.assign dest (.use (.copy src))⟩ loc
        = if dest = src then [⟨loc, .overlappingAssign⟩] else [])
    ∧ (visitStatement cx body ⟨.assign dest (.use (.move src))⟩ loc
        = if dest = src then [⟨loc, .overlappingAssign⟩] else [])
    ∧ visitStatement cx body ⟨.assign dest (.use (.constant t))⟩ loc = []
    ∧ visitStatement cx body ⟨.assign dest .otherShape⟩ loc = []
    ∧ visitStatement cx body ⟨.otherStatement⟩ loc = [] := by
  refine ⟨?_, ?_, rfl, rfl, rfl⟩ <;>
    by_cases h : dest = src <;> simp [visitStatement, fail, h]

/-- C7: a Call yields exactly one ill-typed-call-target diagnostic naming the
callee's type precisely when that type is neither a function pointer nor a
function item, and absent destination or cleanup successors of the same
terminator are reported independently in addition. -/
theorem call_callee_type_checked_independently (cx : TypingContext) (body : Body)
    (func : Operand) (args : List Operand) (destination : Option (Place × Nat))
    (cleanup : Option Nat) (loc : Location) :
    ((visitTerminator cx body (.call func args destination cleanup) loc).filter
        Diagnostic.isCallTargetViolation
      = if callable (func.ty cx body.localDecls) = true then []
        else [⟨loc, .nonCallableCall (func.ty cx body.localDecls)⟩])
    ∧ (∀ pl target, destination = some (pl, target) →
        body.basicBlocks.get? target = none →
        (⟨loc, .danglingEdge target⟩ : Diagnostic)
          ∈ visitTerminator cx body (.call func args destination cleanup) loc)
    ∧ (∀ c, cleanup = some c → body.basicBlocks.get? c = none →
        (⟨loc, .danglingEdge c⟩ : Diagnostic)
          ∈ visitTerminator cx body (.call func args destination cleanup) loc) := by
  unfold visitTerminator
  refine ⟨?_, ?_, ?_⟩
  · rw [List.filter_append, List.filter_append]
    have h2 : (checkDestination body loc destination).filter
        Diagnostic.isCallTargetViolation = [] := by
      rw [List.filter_eq_nil_iff]
      intro d hd
      obtain ⟨bb, rfl⟩ := mem_checkDestination body loc destination d hd
      simp [Diagnostic.isCallTargetViolation]
    have h3 : (optCheckBB body loc cleanup).filter
        Diagnostic.isCallTargetViolation = [] := by
      rw [List.filter_eq_nil_iff]
      intro d hd
      obtain ⟨bb, rfl⟩ := mem_optCheckBB body loc cleanup d hd
      simp [Diagnostic.isCallTargetViolation]
    rw [h2, h3, checkCallable_eq]
    by_cases hc : callable (func.ty cx body.localDecls) = true <;>
      simp [hc, Diagnostic.isCallTargetViolation]
  · intro pl target hdst hnone
    subst hdst
    exact List.mem_append.mpr (Or.inl (List.mem_append.mpr (Or.inr
      (by simp [checkDestination, checkBB_invalid body loc target hnone]))))
  · intro c hcl hnone
    subst hcl
    exact List.mem_append.mpr (Or.inr
      (by simp [optCheckBB, checkBB_invalid body loc c hnone]))

/-- C7 witness: a Call whose callee is a constant of non-callable type with
absent destination and cleanup blocks reports the ill-typed callee naming the
type and both dangling edges. -/
theorem call_callee_type_checked_independently_witness :
    ((visitTerminator cxAllCopy emptyBody
        (.call (.constant (Ty.adt 3)) [] (some (⟨0, []⟩, 5)) (some 6)) ⟨0, 0⟩).filter
        Diagnostic.isCallTargetViolation
      = [⟨⟨0, 0⟩, .nonCallableCall (Ty.adt 3)⟩])
    ∧ (⟨⟨0, 0⟩, .danglingEdge 5⟩ : Diagnostic)
      ∈ visitTerminator cxAllCopy emptyBody
          (.call (.constant (Ty.adt 3)) [] (some (⟨0, []⟩, 5)) (some 6)) ⟨0, 0⟩
    ∧ (⟨⟨0, 0⟩, .danglingEdge 6⟩ : Diagnostic)
      ∈ visitTerminator cxAllCopy emptyBody
          (.call (.constant (Ty.adt 3)) [] (some (⟨0, []⟩, 5)) (some 6)) ⟨0, 0⟩ := by
  have h := call_callee_type_checked_independently cxAllCopy emptyBody
    (.constant (Ty.adt 3)) [] (some (⟨0, []⟩, 5)) (some 6) ⟨0, 0⟩
  exact ⟨by rw [h.1]; decide,
    h.2.1 ⟨0, []⟩ 5 rfl (by decide),
    h.2.2 6 rfl (by decide)⟩

/-- C8: an Assert yields exactly one ill-typed-condition diagnostic naming
the condition's type precisely when that type is not boolean, and the
existence checks for the target and the optional cleanup successor are
evaluated independently in addition. -/
theorem assert_condition_type_checked_independently (cx : TypingContext)
    (body : Body) (cond : Operand) (expected : Bool) (target : Nat)
    (cleanup : Option Nat) (loc : Location) :
    ((visitTerminator cx body (.assert cond expected target cleanup) loc).filter
        Diagnostic.isAssertCondViolation
      = if cond.ty cx body.localDecls = Ty.bool then []
        else [⟨loc, .nonBoolAssert (cond.ty cx body.localDecls)⟩])
    ∧ (body.basicBlocks.get? target = none →
        (⟨loc, .danglingEdge target⟩ : Diagnostic)
          ∈ visitTerminator cx body (.assert cond expected target cleanup) loc)
    ∧ (∀ c, cleanup = some c → body.basicBlocks.get? c = none →
        (⟨loc, .danglingEdge c⟩ : Diagnostic)
          ∈ visitTerminator cx body (.assert cond expected target cleanup) loc) := by
  unfold visitTerminator
  refine ⟨?_, ?_, ?_⟩
  · rw [List.filter_append, List.filter_append]
    have h2 : (checkBB body loc target).filter Diagnostic.isAssertCondViolation = [] := by
      rw [List.filter_eq_nil_iff]
      intro d hd
      have := mem_checkBB body loc target d hd
      subst this
      simp [Diagnostic.isAssertCondViolation]
    have h3 : (optCheckBB body loc cleanup).filter
        Diagnostic.isAssertCondViolation = [] := by
      rw [List.filter_eq_nil_iff]
      intro d hd
      obtain ⟨bb, rfl⟩ := mem_optCheckBB body loc cleanup d hd
      simp [Diagnostic.isAssertCondViolation]
    rw [h2, h3, checkAssertCond_eq]
    by_cases hb : cond.ty cx body.localDecls = Ty.bool <;>
      simp [hb, Diagnostic.isAssertCondViolation]
  · intro hnone
    exact List.mem_append.mpr (Or.inl (List.mem_append.mpr (Or.inr
      (by simp [checkBB_invalid body loc target hnone]))))
  · intro c hcl hnone
    subst hcl
    exact List.mem_append.mpr (Or.inr
      (by simp [optCheckBB, checkBB_invalid body loc c hnone]))

/-- C8 witness: an Assert whose condition is a constant of a non-boolean type
with absent target and cleanup blocks reports the ill-typed condition naming
the type and both dangling edges. -/
theorem assert_condition_type_checked_independently_witness :
    ((visitTerminator cxAllCopy emptyBody
        (.assert (.constant (Ty.adt 1)) true 4 (some 5)) ⟨0, 0⟩).filter
        Diagnostic.isAssertCondViolation
      = [⟨⟨0, 0⟩, .nonBoolAssert (Ty.adt 1)⟩])
    ∧ (⟨⟨0, 0⟩, .danglingEdge 4⟩ : Diagnostic)
      ∈ visitTerminator cxAllCopy emptyBody
          (.assert (.constant (Ty.adt 1)) true 4 (some 5)) ⟨0, 0⟩
    ∧ (⟨⟨0, 0⟩, .danglingEdge 5⟩ : Diagnostic)
      ∈ visitTerminator cxAllCopy emptyBody
          (.assert (.constant (Ty.adt 1)) true 4 (some 5)) ⟨0, 0⟩ := by
  have h := assert_condition_type_checked_independently cxAllCopy emptyBody
    (.constant (Ty.adt 1)) true 4 (some 5) ⟨0, 0⟩
  exact ⟨by rw [h.1]; decide,
    h.2.1 (by decide),
    h.2.2 5 rfl (by decide)⟩

/-- C9: the operand check never reports a non-duplicable-copy violation for a
Move operand, regardless of whether the moved place's type is trivially
duplicable. -/
theorem move_operand_never_copy_checked (cx : TypingContext) (body : Body)
    (place : Place) (loc : Location) :
    visitOperand cx body (.move place) loc = [] := rfl

/-- C10: a validation run leaves the function body unchanged; all findings
are side effects on the diagnostic sink only. -/
theorem run_pass_preserves_body (cx : TypingContext) (s : Session) :
    (runPass cx s).body = s.body := by
  rw [runPass_eq]

end MirValidate
